import Mathlib

/-!
Verification of the xlsx-merger core logic against its design spec.

The embedding follows src/src/app.py (projection / merge, configuration
round-trip) and src/src/data_quality.py (schema validation).  Spreadsheet and
JSON I/O are external library glue; a source file is modelled as the grid of
cells that pd.read_excel returns, and the persisted configuration document as
the record of values json round-trips losslessly.
-/

namespace XlsxMerger

/-- A spreadsheet cell: `none` models a missing value (pandas NaN). -/
abbrev Cell := Option String

/-- One uploaded file as read by `pd.read_excel(file, header=None)`:
its name plus a rectangular grid with `ncols` columns. -/
structure SourceFile where
  name : String
  ncols : Nat
  rows : List (List Cell)
deriving DecidableEq, Repr

/-- `df.iloc[:, j]`: column `j` of the grid; positions past a row's end read
as missing. -/
def SourceFile.col (f : SourceFile) (j : Nat) : List Cell :=
  f.rows.map (fun r => r.getD j none)

/-- `astype(str)` on a cell: pandas prints NaN as the string "nan". -/
def pyStr : Cell → String
  | none => "nan"
  | some s => s

/-- `fillna('').astype(str)` on a cell: a missing value becomes "". -/
def fillnaStr : Cell → String
  | none => ""
  | some s => s

/-- `dict(zip(ks, vs)).get(k, None)`: a Python dict is built left to right and
later bindings overwrite earlier ones, so lookup returns the value of the last
pair whose key is `k`, or Python None (here: Lean `none`). -/
def dictGet : List (String × String) → String → Option String
  | [], _ => none
  | p :: ps, k =>
    match dictGet ps k with
    | some v => some v
    | none => if p.1 = k then some p.2 else none

/-- The per-file field map of app.py lines 86-88: the string-coerced header
column zipped with the empty-filled value column. -/
def fieldPairs (f : SourceFile) (dhi dci : Nat) : List (String × String) :=
  List.zip ((f.col dhi).map pyStr) ((f.col dci).map fillnaStr)

/-- One merged row (app.py lines 89-98): the file name, then
`data_dict.get(header, None)` for each selected header in order. -/
def buildRow (dhi dci : Nat) (sel : List String) (f : SourceFile) :
    String × List (Option String) :=
  (f.name, sel.map (fun h => dictGet (fieldPairs f dhi dci) h))

/-- Python `str.split()` with no arguments over the character list: split on
runs of whitespace, discarding empty pieces.  `cur` holds the current token
reversed. -/
def pySplitGo (cur : List Char) : List Char → List (List Char)
  | [] => if cur = [] then [] else [cur.reverse]
  | c :: cs =>
    if c.isWhitespace then
      if cur = [] then pySplitGo [] cs else cur.reverse :: pySplitGo [] cs
    else pySplitGo (c :: cur) cs

/-- Python `s.split()`. -/
def pySplit (s : String) : List String :=
  (pySplitGo [] s.data).map String.mk

/-- `file.name.split()[-1]`, the sort key of the "By last word in filename"
policy.  On a name with no token Python raises IndexError; `merge_files`
models that raise explicitly, so the default "" here is never relied on. -/
def lastToken (s : String) : String :=
  (pySplit s).getLastD ""

/-- Insert `a` into `l` before the first element `b` with `le a b`.  Combined
with `stableSort` below this is a stable sort, which is the behaviour Python
guarantees for `list.sort`. -/
def insertSorted (le : α → α → Bool) (a : α) : List α → List α
  | [] => [a]
  | b :: l => if le a b then a :: b :: l else b :: insertSorted le a l

/-- Stable sort modelling Python `list.sort(key=...)`. -/
def stableSort (le : α → α → Bool) : List α → List α
  | [] => []
  | a :: l => insertSorted le a (stableSort le l)

/-- Boolean string comparison used for the sort keys: Python compares the
string keys lexicographically by code point, which is the lexicographic
order on their character lists. -/
def strLe (a b : String) : Bool := decide (a.data ≤ b.data)

/-- The UI string selecting the last-token ordering policy. -/
def byLastWord : String := "By last word in filename"

/-- The UI string selecting the plain filename ordering policy. -/
def byFilename : String := "By filename"

/-- The in-place `files.sort(...)` statements of app.py lines 72-75: the
state of the caller's list after both conditionals ran. -/
def sortFiles (order : String) (files : List SourceFile) : List SourceFile :=
  let files1 :=
    if order = byLastWord then
      stableSort (fun a b => strLe (lastToken a.name) (lastToken b.name)) files
    else files
  if order = byFilename then
    stableSort (fun a b => strLe a.name b.name) files1
  else files1

/-- Outcome of `merge_files` (app.py lines 55-101). -/
inductive MergeResult where
  /-- an uncaught Python exception escapes the call -/
  | raised : MergeResult
  /-- `st.error(...)` then `return pd.DataFrame()`: an empty frame, with the
  offending file reported -/
  | emptyFrame (badFile : String) : MergeResult
  /-- the merged DataFrame: column header and data rows -/
  | ok (header : List String) (rows : List (String × List (Option String))) :
      MergeResult
deriving DecidableEq, Repr

/-- The per-file loop of app.py lines 77-98: each file is checked for enough
columns (`df.shape[1] <= max(...)` aborts the whole call) and otherwise
contributes one row. -/
def mergeLoop (dhi dci : Nat) (sel : List String) :
    List SourceFile → Except String (List (String × List (Option String)))
  | [] => .ok []
  | f :: fs =>
    if f.ncols ≤ max dhi dci then .error f.name
    else
      match mergeLoop dhi dci sel fs with
      | .error n => .error n
      | .ok rs => .ok (buildRow dhi dci sel f :: rs)

/-- merge_files (app.py lines 55-101).  The caller's list is first sorted in
place by the chosen policy (the last-token key raises IndexError on a name
with no whitespace-delimited token).  If the loop never runs — no files —
the final `pd.DataFrame(merged_data, columns=headers)` reads the unbound
local `headers` and raises; if some file lacks columns an empty frame is
returned; otherwise the merged frame has header `["Filename"] +
selected_headers` and one row per file. -/
def merge_files (files : List SourceFile) (dhi dci : Nat)
    (sel : List String) (order : String) : MergeResult :=
  if order = byLastWord ∧ ∃ f ∈ files, pySplit f.name = [] then .raised
  else
    match sortFiles order files with
    | [] => .raised
    | _ :: _ =>
      match mergeLoop dhi dci sel (sortFiles order files) with
      | .error n => .emptyFrame n
      | .ok rs => .ok ("Filename" :: sel) rs

/-- The data rows an outcome carries: a raised exception or an empty frame
carries none. -/
def resultRows : MergeResult → List (String × List (Option String))
  | .raised => []
  | .emptyFrame _ => []
  | .ok _ rs => rs

/-- The caller's `files` list after `merge_files` returns normally: the two
in-place `files.sort` statements have reordered it. -/
def filesAfterCall (order : String) (files : List SourceFile) :
    List SourceFile :=
  sortFiles order files

/-! ## Configuration round-trip (app.py lines 12-53, 149-155) -/

/-- Helper of remove_duplicates: keep elements not yet seen, first occurrence
first, exactly the traversal order of Python `dict.fromkeys`. -/
def dedupGo (seen : List String) : List String → List String
  | [] => []
  | x :: xs => if x ∈ seen then dedupGo seen xs else x :: dedupGo (x :: seen) xs

/-- remove_duplicates (app.py lines 12-22): `list(dict.fromkeys(lst))` keeps
the first occurrence of each element, in order. -/
def remove_duplicates (l : List String) : List String := dedupGo [] l

/-- The configuration record built in main (app.py lines 295-300) and written
by save_configuration. -/
structure Config where
  data_header_idx : Int
  data_col_idx : Int
  selected_headers : List String
  order : String
deriving DecidableEq, Repr

/-- save_configuration (app.py lines 24-34): `json.dump(config, f)`.  JSON
serialization of integers, strings and string lists is lossless, so the
persisted document is modelled as the record it denotes. -/
def save_configuration (c : Config) : Config := c

/-- load_configuration (app.py lines 36-53): `json.load(file)` on a document
produced by save_configuration parses back the same record. -/
def load_configuration (doc : Config) : Option Config := some doc

/-- Installing a loaded configuration into the session (app.py lines
149-155): the indices and the order are taken as-is, and selected_headers
passes through remove_duplicates. -/
def applyLoadedConfig (c : Config) : Config :=
  { c with selected_headers := remove_duplicates c.selected_headers }

/-! ## Validator (src/src/data_quality.py)

The schema is declared in the source; the validation engine is the pandera
library call `schema.validate(merged_df, lazy=True)`, whose code is not part
of this repository.  Its semantics below is modelled from the spec: coerce
every declared column to its type, treat a missing/empty value as null and
allow it only when the column is nullable, apply the range/membership check
to non-null values, and collect every violation with its row index, column
name, rule description and offending value. -/

/-- Declared primitive column types of the schema. -/
inductive ColType where
  | str : ColType
  | int32 : ColType
  | float64 : ColType
deriving DecidableEq, Repr

/-- The optional per-column value check.  A float bound is exact here: the
checks of the fixed schema only use integer bounds, far from any float64
rounding. -/
inductive ColCheck where
  | always : ColCheck
  | inRangeInt (lo hi : Int) : ColCheck
  | inRangeDec (lo hi : Int) : ColCheck
  | isinInt (allowed : List Int) : ColCheck
deriving DecidableEq, Repr

/-- One column rule: name, declared type, nullability flag, check. -/
structure SchemaRule where
  name : String
  type : ColType
  nullable : Bool
  check : ColCheck
deriving DecidableEq, Repr

/-- The fixed schema of src/src/data_quality.py lines 5-13. -/
def schema : List SchemaRule :=
  [⟨"Filename", .str, false, .always⟩,
   ⟨"BIRTH_YEAR", .int32, true, .inRangeInt 1900 2023⟩,
   ⟨"BIRTH_MNTH", .int32, true, .inRangeInt 1 12⟩,
   ⟨"BIRTH_DAY", .int32, true, .inRangeInt 1 31⟩,
   ⟨"BIRTH_WGHT", .float64, true, .inRangeDec 300 6000⟩,
   ⟨"SEX", .int32, true, .isinInt [1, 2]⟩]

/-- A run of decimal digits as a natural number, or `none` when empty or not
all digits. -/
def parseNatDigits (l : List Char) : Option Nat :=
  if l = [] then none
  else if l.all Char.isDigit then
    some (l.foldl (fun n c => 10 * n + (c.toNat - 48)) 0)
  else none

/-- Modelled from the spec: the numeric parse a float64 column attempts on a
string cell.  The exact decimal value is kept as numerator and power-of-ten
scale; the schema bounds are integers, so exact comparison agrees with
float64 comparison on every value the schema can see. -/
def parseDecimal (s : String) : Option (Int × Nat) :=
  let signed : Bool × List Char :=
    match s.data with
    | '-' :: rest => (true, rest)
    | '+' :: rest => (false, rest)
    | l => (false, l)
  let body := signed.2
  let mk : Nat → Nat → Int × Nat := fun n sc =>
    (if signed.1 then -(n : Int) else (n : Int), sc)
  match body.splitOn '.' with
  | [ip] => (parseNatDigits ip).map (fun n => mk n 0)
  | [ip, fp] =>
    match parseNatDigits ip, parseNatDigits fp with
    | some i, some f => some (mk (i * 10 ^ fp.length + f) fp.length)
    | _, _ => none
  | _ => none

/-- Modelled from the spec: the integer parse an int32 column attempts on a
string cell — an optional sign followed by decimal digits. -/
def parseInt (s : String) : Option Int :=
  match s.data with
  | '-' :: rest => (parseNatDigits rest).map (fun n => -(n : Int))
  | '+' :: rest => (parseNatDigits rest).map (fun n => (n : Int))
  | l => (parseNatDigits l).map (fun n => (n : Int))

/-- A coerced cell of the validated table. -/
inductive CellValue where
  | vstr (s : String) : CellValue
  | vint (n : Int) : CellValue
  | vdec (num : Int) (scale : Nat) : CellValue
  | vnull : CellValue
deriving DecidableEq, Repr

/-- Modelled from the spec: checking one cell against one column rule.
A missing or empty value is null: permitted only when nullable.  A string
column passes through; a numeric column attempts the parse, a failed parse
being itself a violation; the range/membership check applies to non-null
parsed values.  Returns the coerced value or the violated rule description. -/
def checkCell (r : SchemaRule) (cell : Option String) :
    Except String CellValue :=
  if cell = none ∨ cell = some "" then
    if r.nullable then .ok .vnull else .error "non-nullable column is null"
  else
    let s := cell.getD ""
    match r.type with
    | .str => .ok (.vstr s)
    | .int32 =>
      match parseInt s with
      | none => .error "coercion to int32 failed"
      | some n =>
        match r.check with
        | .inRangeInt lo hi =>
          if lo ≤ n ∧ n ≤ hi then .ok (.vint n)
          else .error "in_range check failed"
        | .isinInt allowed =>
          if n ∈ allowed then .ok (.vint n) else .error "isin check failed"
        | _ => .ok (.vint n)
    | .float64 =>
      match parseDecimal s with
      | none => .error "coercion to float64 failed"
      | some q =>
        match r.check with
        | .inRangeDec lo hi =>
          if lo * 10 ^ q.2 ≤ q.1 ∧ q.1 ≤ hi * 10 ^ q.2 then
            .ok (.vdec q.1 q.2)
          else .error "in_range check failed"
        | _ => .ok (.vdec q.1 q.2)

/-- Whether a cell violates a rule. -/
def violatesCell (r : SchemaRule) (cell : Option String) : Bool :=
  match checkCell r cell with
  | .ok _ => false
  | .error _ => true

/-- One failure record of the validation report: row index, column name,
violated rule description, offending value. -/
structure FailureCase where
  rowIdx : Nat
  column : String
  rule : String
  value : Option String
deriving DecidableEq, Repr

/-- The merged table as handed to the validator: column header and one list
of cells per row. -/
structure MergedTable where
  header : List String
  rows : List (List (Option String))
deriving DecidableEq, Repr

/-- Cell of a row at column position `j` (missing positions read as null). -/
def cellAt (row : List (Option String)) (j : Nat) : Option String :=
  row.getD j none

/-- Walk the rows of one column collecting every violation, keeping the row
index; no short-circuit. -/
def rowFailures (r : SchemaRule) (j : Nat) :
    Nat → List (List (Option String)) → List FailureCase
  | _, [] => []
  | i, row :: rest =>
    match checkCell r (cellAt row j) with
    | .ok _ => rowFailures r j (i + 1) rest
    | .error d => ⟨i, r.name, d, cellAt row j⟩ :: rowFailures r j (i + 1) rest

/-- Modelled from the spec: all failure cases of one declared column.  A
declared column absent from the table is itself a single schema failure. -/
def columnFailures (t : MergedTable) (r : SchemaRule) : List FailureCase :=
  match t.header.indexOf? r.name with
  | none => [⟨0, r.name, "column not in table", none⟩]
  | some j => rowFailures r j 0 t.rows

/-- Modelled from the spec: every failure case across the whole table,
column by declared column, row by row — collect-all, not fail-fast. -/
def collectFailures (t : MergedTable) (rules : List SchemaRule) :
    List FailureCase :=
  (rules.map (columnFailures t)).flatten

/-- The fully coerced table the validator returns on success: for each row,
the coerced value of every declared column present in the table. -/
def coerceTable (t : MergedTable) (rules : List SchemaRule) :
    List (List CellValue) :=
  t.rows.map (fun row =>
    rules.filterMap (fun r =>
      (t.header.indexOf? r.name).map (fun j =>
        match checkCell r (cellAt row j) with
        | .ok v => v
        | .error _ => .vnull)))

/-- validate_data (src/src/data_quality.py lines 15-22):
`schema.validate(merged_df, lazy=True)` either returns the validated frame —
then the pair is (frame, None) — or raises SchemaErrors carrying all failure
cases, and the pair is (None, failure_cases). -/
def validate_data (t : MergedTable) (rules : List SchemaRule) :
    Option (List (List CellValue)) × Option (List FailureCase) :=
  let errs := collectFailures t rules
  if errs.isEmpty then (some (coerceTable t rules), none) else (none, some errs)

/-- The number of schema violations of a table, counted cell by cell: one per
violating cell of each declared column present in the table, one per declared
column absent from it. -/
def countFailures (t : MergedTable) (rules : List SchemaRule) : Nat :=
  (rules.map (fun r =>
    match t.header.indexOf? r.name with
    | none => 1
    | some j =>
      (t.rows.filter (fun row => violatesCell r (cellAt row j))).length)).sum

/-! ## Helper lemmas -/

theorem mem_insertSorted {le : α → α → Bool} {a x : α} {l : List α} :
    x ∈ insertSorted le a l ↔ x = a ∨ x ∈ l := by
  induction l with
  | nil => simp [insertSorted]
  | cons b l ih =>
    by_cases h : le a b = true
    · simp only [insertSorted, if_pos h, List.mem_cons]
    · simp only [insertSorted, if_neg h, List.mem_cons, ih]
      tauto

theorem insertSorted_perm (le : α → α → Bool) (a : α) (l : List α) :
    (insertSorted le a l).Perm (a :: l) := by
  induction l with
  | nil => simp [insertSorted]
  | cons b l ih =>
    by_cases h : le a b = true
    · simp [insertSorted, h]
    · simp only [insertSorted, if_neg h]
      exact (ih.cons b).trans (List.Perm.swap a b l)

theorem stableSort_perm (le : α → α → Bool) (l : List α) :
    (stableSort le l).Perm l := by
  induction l with
  | nil => simp [stableSort]
  | cons a l ih =>
    exact (insertSorted_perm le a (stableSort le l)).trans (ih.cons a)

theorem insertSorted_pairwise {le : α → α → Bool}
    (htrans : ∀ a b c, le a b = true → le b c = true → le a c = true)
    (htot : ∀ a b, le a b = true ∨ le b a = true)
    (a : α) {l : List α} (hl : l.Pairwise (fun x y => le x y = true)) :
    (insertSorted le a l).Pairwise (fun x y => le x y = true) := by
  induction l with
  | nil => simp [insertSorted]
  | cons b l ih =>
    rcases List.pairwise_cons.mp hl with ⟨hb, hl2⟩
    by_cases h : le a b = true
    · unfold insertSorted
      rw [if_pos h]
      refine List.pairwise_cons.mpr ⟨?_, hl⟩
      intro x hx
      rcases List.mem_cons.mp hx with rfl | hx
      · exact h
      · exact htrans a b x h (hb x hx)
    · unfold insertSorted
      rw [if_neg h]
      refine List.pairwise_cons.mpr ⟨?_, ih hl2⟩
      intro x hx
      rcases mem_insertSorted.mp hx with rfl | hx
      · rcases htot x b with h1 | h1
        · exact absurd h1 h
        · exact h1
      · exact hb x hx

theorem stableSort_pairwise {le : α → α → Bool}
    (htrans : ∀ a b c, le a b = true → le b c = true → le a c = true)
    (htot : ∀ a b, le a b = true ∨ le b a = true) (l : List α) :
    (stableSort le l).Pairwise (fun x y => le x y = true) := by
  induction l with
  | nil => simp [stableSort]
  | cons a l ih => exact insertSorted_pairwise htrans htot a ih

theorem strLe_trans (a b c : String)
    (h1 : strLe a b = true) (h2 : strLe b c = true) : strLe a c = true := by
  simp only [strLe, decide_eq_true_eq] at h1 h2 ⊢
  exact le_trans h1 h2

theorem strLe_total (a b : String) : strLe a b = true ∨ strLe b a = true := by
  simp only [strLe, decide_eq_true_eq]
  exact le_total a.data b.data

theorem sortFiles_perm (order : String) (files : List SourceFile) :
    (sortFiles order files).Perm files := by
  simp only [sortFiles]
  split_ifs
  · exact (stableSort_perm _ _).trans (stableSort_perm _ _)
  · exact stableSort_perm _ _
  · exact stableSort_perm _ _
  · exact List.Perm.refl files

theorem mergeLoop_ok (dhi dci : Nat) (sel : List String) (l : List SourceFile)
    (h : ∀ f ∈ l, max dhi dci < f.ncols) :
    mergeLoop dhi dci sel l = .ok (l.map (buildRow dhi dci sel)) := by
  induction l with
  | nil => rfl
  | cons f fs ih =>
    have hf := h f (List.mem_cons_self f fs)
    have hfs := ih (fun g hg => h g (List.mem_cons_of_mem f hg))
    simp [mergeLoop, Nat.not_le.mpr hf, hfs]

theorem mergeLoop_error (dhi dci : Nat) (sel : List String)
    (l : List SourceFile) (h : ∃ f ∈ l, f.ncols ≤ max dhi dci) :
    ∃ bad ∈ l, bad.ncols ≤ max dhi dci ∧
      mergeLoop dhi dci sel l = .error bad.name := by
  induction l with
  | nil => simp at h
  | cons f fs ih =>
    by_cases hf : f.ncols ≤ max dhi dci
    · exact ⟨f, List.mem_cons_self f fs, hf, by simp [mergeLoop, hf]⟩
    · rcases h with ⟨g, hg, hgle⟩
      rcases List.mem_cons.mp hg with rfl | hg2
      · exact absurd hgle hf
      · rcases ih ⟨g, hg2, hgle⟩ with ⟨bad, hbad, hle, herr⟩
        exact ⟨bad, List.mem_cons_of_mem f hbad, hle, by simp [mergeLoop, hf, herr]⟩

theorem dictGet_eq_none {ps : List (String × String)} {k : String} :
    dictGet ps k = none ↔ k ∉ ps.map Prod.fst := by
  induction ps with
  | nil => simp [dictGet]
  | cons p ps ih =>
    simp only [dictGet, List.map_cons, List.mem_cons]
    cases h : dictGet ps k with
    | some v =>
      have hk : k ∈ List.map Prod.fst ps := by
        by_contra hkn
        simp [ih.mpr hkn] at h
      simp [h, hk]
    | none =>
      have hk : k ∉ List.map Prod.fst ps := ih.mp h
      by_cases hp : p.1 = k
      · simp [h, hp]
      · have hk2 : ¬(k = p.1) := fun he => hp he.symm
        simp [h, hp, hk, hk2]

theorem dictGet_last {ps qs : List (String × String)} {k v : String}
    (hlast : k ∉ qs.map Prod.fst) :
    dictGet (ps ++ (k, v) :: qs) k = some v := by
  induction ps with
  | nil =>
    have hq : dictGet qs k = none := dictGet_eq_none.mpr hlast
    simp [dictGet, hq]
  | cons p ps ih =>
    simp [dictGet, ih]

theorem fieldPairs_fst (f : SourceFile) (dhi dci : Nat) :
    (fieldPairs f dhi dci).map Prod.fst = (f.col dhi).map pyStr := by
  apply List.map_fst_zip
  simp [SourceFile.col]

theorem dedupGo_sublist (seen : List String) (l : List String) :
    (dedupGo seen l).Sublist l := by
  induction l generalizing seen with
  | nil => simp [dedupGo]
  | cons x xs ih =>
    by_cases h : x ∈ seen
    · simp only [dedupGo, if_pos h]
      exact (ih seen).cons x
    · simp only [dedupGo, if_neg h]
      exact (ih (x :: seen)).cons₂ x

theorem mem_dedupGo {seen l : List String} {x : String} :
    x ∈ dedupGo seen l ↔ x ∈ l ∧ x ∉ seen := by
  induction l generalizing seen with
  | nil => simp [dedupGo]
  | cons y ys ih =>
    by_cases h : y ∈ seen
    · rw [dedupGo, if_pos h, ih]
      constructor
      · rintro ⟨h1, h2⟩
        exact ⟨List.mem_cons_of_mem y h1, h2⟩
      · rintro ⟨h1, h2⟩
        rcases List.mem_cons.mp h1 with rfl | h1
        · exact absurd h h2
        · exact ⟨h1, h2⟩
    · rw [dedupGo, if_neg h]
      simp only [List.mem_cons, ih]
      constructor
      · rintro (rfl | ⟨h1, h2⟩)
        · exact ⟨Or.inl rfl, h⟩
        · exact ⟨Or.inr h1, fun hx => h2 (Or.inr hx)⟩
      · rintro ⟨rfl | h1, h2⟩
        · exact Or.inl rfl
        · by_cases hxy : x = y
          · exact Or.inl hxy
          · refine Or.inr ⟨h1, ?_⟩
            rintro (rfl | hc)
            · exact hxy rfl
            · exact h2 hc

theorem dedupGo_nodup (seen : List String) (l : List String) :
    (dedupGo seen l).Nodup := by
  induction l generalizing seen with
  | nil => simp [dedupGo]
  | cons x xs ih =>
    by_cases h : x ∈ seen
    · simp only [dedupGo, if_pos h]
      exact ih seen
    · simp only [dedupGo, if_neg h]
      refine List.nodup_cons.mpr ⟨?_, ih (x :: seen)⟩
      intro hx
      exact (mem_dedupGo.mp hx).2 (List.mem_cons_self x seen)

theorem rowFailures_length (r : SchemaRule) (j : Nat)
    (rows : List (List (Option String))) (i : Nat) :
    (rowFailures r j i rows).length =
      (rows.filter (fun row => violatesCell r (cellAt row j))).length := by
  induction rows generalizing i with
  | nil => rfl
  | cons row rest ih =>
    cases h : checkCell r (cellAt row j) with
    | ok v => simp [rowFailures, List.filter_cons, violatesCell, h, ih]
    | error d => simp [rowFailures, List.filter_cons, violatesCell, h, ih]

theorem columnFailures_length (t : MergedTable) (r : SchemaRule) :
    (columnFailures t r).length =
      match t.header.indexOf? r.name with
      | none => 1
      | some j =>
        (t.rows.filter (fun row => violatesCell r (cellAt row j))).length := by
  unfold columnFailures
  cases t.header.indexOf? r.name with
  | none => rfl
  | some j => exact rowFailures_length r j t.rows 0

theorem collectFailures_length (t : MergedTable) (rules : List SchemaRule) :
    (collectFailures t rules).length = countFailures t rules := by
  induction rules with
  | nil => rfl
  | cons r rs ih =>
    have hcol := columnFailures_length t r
    simp only [collectFailures, countFailures, List.map_cons, List.flatten_cons,
      List.length_append, List.sum_cons] at ih hcol ⊢
    omega

/-! ## Concrete examples used by the claims -/

/-- The file "2020 report A.xlsx" of the spec's ordering example. -/
def fileReportA : SourceFile := ⟨"2020 report A.xlsx", 2, [[some "K", some "1"]]⟩

/-- The file "2019 report B.xlsx" of the spec's ordering example. -/
def fileReportB : SourceFile := ⟨"2019 report B.xlsx", 2, [[some "K", some "2"]]⟩

/-- A merged table carrying exactly the spec's three independent violations:
BIRTH_YEAR=1800, BIRTH_MNTH=13 and SEX=3. -/
def exampleBadTable : MergedTable :=
  ⟨["Filename", "BIRTH_YEAR", "BIRTH_MNTH", "BIRTH_DAY", "BIRTH_WGHT", "SEX"],
   [[some "f.xlsx", some "1800", some "13", some "15", some "3200", some "3"]]⟩

/-- A source file whose field-name column holds "A" twice, bound to "1" then
to "2". -/
def exampleDupFile : SourceFile :=
  ⟨"dup.xlsx", 2, [[some "A", some "1"], [some "A", some "2"]]⟩

/-- A source file binding only the field name "A". -/
def exampleSparseFile : SourceFile := ⟨"sparse.xlsx", 2, [[some "A", some "1"]]⟩

/-- A source file with a single column. -/
def exampleNarrowFile : SourceFile := ⟨"narrow.xlsx", 1, [[some "A"]]⟩

/-! ## Claim theorems -/

/-- C1: validation is all-or-nothing: for every merged table, validate_data
with the fixed schema returns either the fully coerced table with no error
list (zero violations) or no table together with the complete violation list
(at least one violation); it never returns both, and never a partially
validated table. -/
theorem validator_all_or_nothing (t : MergedTable) :
    (collectFailures t schema = [] →
      validate_data t schema = (some (coerceTable t schema), none)) ∧
    (collectFailures t schema ≠ [] →
      validate_data t schema = (none, some (collectFailures t schema))) ∧
    ((validate_data t schema).1 = none ∨ (validate_data t schema).2 = none) := by
  by_cases h : collectFailures t schema = [] <;>
    simp [validate_data, List.isEmpty_iff, h]

/-- Witness for C1 at the three-violation example table. -/
theorem validator_all_or_nothing_witness :
    validate_data exampleBadTable schema =
      (none, some (collectFailures exampleBadTable schema)) :=
  (validator_all_or_nothing exampleBadTable).2.1 (by decide)

/-- C2: validation is collect-all, not fail-fast: the report holds exactly
one record per violating cell (and one per declared column missing from the
table), and on the example table with the three independent violations
BIRTH_YEAR=1800, BIRTH_MNTH=13 and SEX=3 exactly those three records are
returned, not only the first. -/
theorem validator_collect_all :
    (∀ t : MergedTable,
      (collectFailures t schema).length = countFailures t schema) ∧
    (collectFailures exampleBadTable schema).length = 3 ∧
    (collectFailures exampleBadTable schema).map (fun e => (e.column, e.value))
      = [("BIRTH_YEAR", some "1800"), ("BIRTH_MNTH", some "13"),
         ("SEX", some "3")] :=
  ⟨fun t => collectFailures_length t schema, by decide, by decide⟩

/-- C3: for a non-empty file list in which every file's column count exceeds
both requested indices, merge_files returns a table with header
["Filename", ...selected], exactly one row per input file, rows in the order
of the chosen sorting policy, and each row starting with its file's name. -/
theorem merge_one_row_per_file (files : List SourceFile) (dhi dci : Nat)
    (sel : List String) (order : String) (hne : files ≠ [])
    (hcols : ∀ f ∈ files, max dhi dci < f.ncols)
    (htok : order = byLastWord → ∀ f ∈ files, pySplit f.name ≠ []) :
    merge_files files dhi dci sel order =
      .ok ("Filename" :: sel)
        ((sortFiles order files).map (buildRow dhi dci sel)) ∧
    ((sortFiles order files).map (buildRow dhi dci sel)).length =
      files.length ∧
    ((sortFiles order files).map (buildRow dhi dci sel)).map Prod.fst =
      (sortFiles order files).map SourceFile.name := by
  have hperm := sortFiles_perm order files
  have hguard : ¬(order = byLastWord ∧ ∃ f ∈ files, pySplit f.name = []) := by
    rintro ⟨ho, f, hf, he⟩
    exact htok ho f hf he
  have hsorted : ∀ f ∈ sortFiles order files, max dhi dci < f.ncols :=
    fun f hf => hcols f (hperm.mem_iff.mp hf)
  have hloop := mergeLoop_ok dhi dci sel (sortFiles order files) hsorted
  refine ⟨?_, ?_, ?_⟩
  · unfold merge_files
    rw [if_neg hguard]
    cases hs : sortFiles order files with
    | nil =>
      rw [hs] at hperm
      exact absurd hperm.symm.eq_nil hne
    | cons f fs =>
      rw [hs] at hloop
      simp [hs, hloop]
  · simp [hperm.length_eq]
  · simp [buildRow]

/-- Witness for C3: two concrete files merged under the filename policy. -/
theorem merge_one_row_per_file_witness :
    merge_files [fileReportA, fileReportB] 0 1 ["K"] byFilename =
      .ok ("Filename" :: ["K"])
        ((sortFiles byFilename [fileReportA, fileReportB]).map
          (buildRow 0 1 ["K"])) :=
  (merge_one_row_per_file [fileReportA, fileReportB] 0 1 ["K"] byFilename
    (by decide) (by decide) (by decide)).1

/-- C4: a requested field name absent from a file's field map yields Python
None in the corresponding cell of that file's merged row — an absent marker
distinct from the empty string (the value a present name with a missing
value cell yields) — never a synthesized default. -/
theorem absent_field_gives_none (f : SourceFile) (dhi dci : Nat)
    (sel : List String) (name : String)
    (habs : name ∉ (f.col dhi).map pyStr) :
    (∀ i : Nat, sel.get? i = some name →
      (buildRow dhi dci sel f).2.get? i = some none) ∧
    (none : Option String) ≠ some "" := by
  refine ⟨?_, by simp⟩
  intro i hi
  have hlook : dictGet (fieldPairs f dhi dci) name = none := by
    rw [dictGet_eq_none, fieldPairs_fst]
    exact habs
  rw [List.get?_eq_getElem?] at hi
  simp only [buildRow, List.get?_eq_getElem?, List.getElem?_map, hi]
  simp [hlook]

/-- Witness for C4: requesting "B" from a file that only binds "A". -/
theorem absent_field_gives_none_witness :
    (buildRow 0 1 ["B"] exampleSparseFile).2.get? 0 = some none :=
  (absent_field_gives_none exampleSparseFile 0 1 ["B"] "B" (by decide)).1
    0 (by decide)

/-- C5: if any source file's column count is at most either requested index,
the whole batch fails: the offending file is reported, and the result is an
empty frame carrying no merged rows — never a partial merge. -/
theorem insufficient_columns_abort (files : List SourceFile) (dhi dci : Nat)
    (sel : List String) (order : String)
    (hbad : ∃ f ∈ files, f.ncols ≤ dhi ∨ f.ncols ≤ dci)
    (htok : order = byLastWord → ∀ f ∈ files, pySplit f.name ≠ []) :
    (∃ bad ∈ files, (bad.ncols ≤ dhi ∨ bad.ncols ≤ dci) ∧
      merge_files files dhi dci sel order = .emptyFrame bad.name) ∧
    resultRows (merge_files files dhi dci sel order) = [] := by
  have hperm := sortFiles_perm order files
  have hguard : ¬(order = byLastWord ∧ ∃ f ∈ files, pySplit f.name = []) := by
    rintro ⟨ho, f, hf, he⟩
    exact htok ho f hf he
  have hbad2 : ∃ f ∈ sortFiles order files, f.ncols ≤ max dhi dci := by
    rcases hbad with ⟨f, hf, hle⟩
    exact ⟨f, hperm.mem_iff.mpr hf, le_max_iff.mpr hle⟩
  rcases mergeLoop_error dhi dci sel (sortFiles order files) hbad2 with
    ⟨bad, hbadmem, hbadle, herr⟩
  have heq : merge_files files dhi dci sel order = .emptyFrame bad.name := by
    unfold merge_files
    rw [if_neg hguard]
    cases hs : sortFiles order files with
    | nil =>
      rw [hs] at hbadmem
      cases hbadmem
    | cons f fs =>
      rw [hs] at herr
      simp [hs, herr]
  refine ⟨⟨bad, hperm.mem_iff.mp hbadmem, le_max_iff.mp hbadle, heq⟩, ?_⟩
  rw [heq]
  rfl

/-- Witness for C5: a one-column file aborts a merge configured with value
column index 1. -/
theorem insufficient_columns_abort_witness :
    (∃ bad ∈ [fileReportA, exampleNarrowFile],
      (bad.ncols ≤ 0 ∨ bad.ncols ≤ 1) ∧
      merge_files [fileReportA, exampleNarrowFile] 0 1 ["K"] byFilename =
        .emptyFrame bad.name) ∧
    resultRows (merge_files [fileReportA, exampleNarrowFile] 0 1 ["K"]
      byFilename) = [] :=
  insufficient_columns_abort [fileReportA, exampleNarrowFile] 0 1 ["K"]
    byFilename (by decide) (by decide)

/-- C6: when a field name occurs more than once in a file's field-name
column, the field map binds it to the value of the last occurrence — later
occurrences silently overwrite earlier ones — so the merged row carries the
last occurrence's value. -/
theorem duplicate_field_last_wins (f : SourceFile) (dhi dci : Nat)
    (sel : List String) (k v : String) (ps qs : List (String × String))
    (hsplit : fieldPairs f dhi dci = ps ++ (k, v) :: qs)
    (hlast : k ∉ qs.map Prod.fst) :
    ∀ i : Nat, sel.get? i = some k →
      (buildRow dhi dci sel f).2.get? i = some (some v) := by
  intro i hi
  have hlook : dictGet (fieldPairs f dhi dci) k = some v := by
    rw [hsplit]
    exact dictGet_last hlast
  rw [List.get?_eq_getElem?] at hi
  simp only [buildRow, List.get?_eq_getElem?, List.getElem?_map, hi]
  simp [hlook]

/-- Witness for C6: a file binding "A" to "1" then to "2" merges as "2". -/
theorem duplicate_field_last_wins_witness :
    (buildRow 0 1 ["A"] exampleDupFile).2.get? 0 = some (some "2") :=
  duplicate_field_last_wins exampleDupFile 0 1 ["A"] "A" "2" [("A", "1")] []
    (by decide) (by decide) 0 (by decide)

/-- C7: the "By last word in filename" policy sorts the files
lexicographically by the last whitespace-delimited token of the name and the
"By filename" policy by the full name; on the spec's example the last tokens
"A.xlsx" and "B.xlsx" put "2020 report A.xlsx" before "2019 report B.xlsx". -/
theorem ordering_policies :
    (∀ files : List SourceFile,
      (sortFiles byLastWord files).Perm files ∧
      ((sortFiles byLastWord files).map (fun f => lastToken f.name)).Pairwise
        (fun a b => a.data ≤ b.data)) ∧
    (∀ files : List SourceFile,
      (sortFiles byFilename files).Perm files ∧
      ((sortFiles byFilename files).map SourceFile.name).Pairwise
        (fun a b => a.data ≤ b.data)) ∧
    lastToken fileReportA.name = "A.xlsx" ∧
    lastToken fileReportB.name = "B.xlsx" ∧
    sortFiles byLastWord [fileReportB, fileReportA] =
      [fileReportA, fileReportB] ∧
    sortFiles byFilename [fileReportB, fileReportA] =
      [fileReportB, fileReportA] := by
  have hne1 : ¬(byLastWord = byFilename) := by decide
  have hne2 : ¬(byFilename = byLastWord) := by decide
  have hkey : ∀ key : SourceFile → String, ∀ files : List SourceFile,
      (stableSort (fun a b => strLe (key a) (key b)) files).Pairwise
        (fun a b => strLe (key a) (key b) = true) := by
    intro key files
    exact stableSort_pairwise
      (fun a b c => strLe_trans (key a) (key b) (key c))
      (fun a b => strLe_total (key a) (key b)) files
  refine ⟨?_, ?_, by decide, by decide, by decide, by decide⟩
  · intro files
    have hs : sortFiles byLastWord files =
        stableSort (fun a b => strLe (lastToken a.name) (lastToken b.name))
          files := by
      simp [sortFiles, hne1]
    constructor
    · rw [hs]
      exact stableSort_perm _ _
    · rw [hs]
      refine List.Pairwise.map _ ?_ (hkey (fun f => lastToken f.name) files)
      intro a b hab
      simpa [strLe, decide_eq_true_eq] using hab
  · intro files
    have hs : sortFiles byFilename files =
        stableSort (fun a b => strLe a.name b.name) files := by
      simp [sortFiles, hne2]
    constructor
    · rw [hs]
      exact stableSort_perm _ _
    · rw [hs]
      refine List.Pairwise.map _ ?_ (hkey SourceFile.name files)
      intro a b hab
      simpa [strLe, decide_eq_true_eq] using hab

/-- C8: the configuration round-trip is lossless: the two integer indices and
the ordering policy come back identical, and the requested field list comes
back as an ordered list with duplicates removed preserving first-occurrence
order, on the spec's example turning ["A","B","A","C"] into ["A","B","C"]. -/
theorem config_round_trip (c : Config) :
    load_configuration (save_configuration c) = some c ∧
    (applyLoadedConfig c).data_header_idx = c.data_header_idx ∧
    (applyLoadedConfig c).data_col_idx = c.data_col_idx ∧
    (applyLoadedConfig c).order = c.order ∧
    (applyLoadedConfig c).selected_headers =
      remove_duplicates c.selected_headers ∧
    (remove_duplicates c.selected_headers).Nodup ∧
    (remove_duplicates c.selected_headers).Sublist c.selected_headers ∧
    (∀ x, x ∈ remove_duplicates c.selected_headers ↔
      x ∈ c.selected_headers) ∧
    remove_duplicates ["A", "B", "A", "C"] = ["A", "B", "C"] := by
  refine ⟨rfl, rfl, rfl, rfl, rfl, dedupGo_nodup [] _, dedupGo_sublist [] _,
    ?_, by decide⟩
  intro x
  rw [remove_duplicates, mem_dedupGo]
  simp

/-- C9 counterexample: merge_files does reorder the caller's list of files in
place — after a call with the "By filename" policy on files named "b.xlsx"
then "a.xlsx", the caller's list has changed. -/
theorem merge_reorders_caller_list :
    filesAfterCall byFilename
        [⟨"b.xlsx", 2, []⟩, ⟨"a.xlsx", 2, []⟩] ≠
      [⟨"b.xlsx", 2, []⟩, ⟨"a.xlsx", 2, []⟩] := by decide

/-- C9 amended: merge_files computes its output from its arguments alone,
but it mutates the caller's file list: after the call the list is a
permutation of the original — sorted per the chosen policy — and it is
unchanged only when neither recognised policy string was chosen. -/
theorem merge_mutation_bounded (order : String) (files : List SourceFile) :
    (filesAfterCall order files).Perm files ∧
    (order ≠ byLastWord → order ≠ byFilename →
      filesAfterCall order files = files) := by
  refine ⟨sortFiles_perm order files, ?_⟩
  intro h1 h2
  simp [filesAfterCall, sortFiles, h1, h2]

/-- Witness for the amended C9: an unrecognised order string leaves the
caller's list unchanged. -/
theorem merge_mutation_bounded_witness :
    (filesAfterCall "Do not sort" [fileReportA]).Perm [fileReportA] ∧
    filesAfterCall "Do not sort" [fileReportA] = [fileReportA] :=
  ⟨(merge_mutation_bounded "Do not sort" [fileReportA]).1,
   (merge_mutation_bounded "Do not sort" [fileReportA]).2
     (by decide) (by decide)⟩

/-- C10: on an empty file list merge_files does not return an empty merged
table: the per-file loop never binds the header variable, so the final frame
construction reads an unbound local and the call raises. -/
theorem merge_empty_input_raises (dhi dci : Nat) (sel : List String)
    (order : String) : merge_files [] dhi dci sel order = .raised := by
  have hsort : sortFiles order [] = [] := by
    simp only [sortFiles]
    split_ifs <;> rfl
  have hguard :
      ¬(order = byLastWord ∧
        ∃ f ∈ ([] : List SourceFile), pySplit f.name = []) := by
    rintro ⟨-, f, hf, -⟩
    cases hf
  unfold merge_files
  rw [if_neg hguard]
  simp [hsort]

end XlsxMerger
